import Mathlib

/-!
Verification development for the unimate repository: a shallow embedding of
the document-indexing pipeline (src/apps/doc-indexer/indexer.py,
src/apps/doc-indexer/embed.py) and the question-answering orchestrator
(src/apps/qa-engine/ragEngine.py), with theorems settling the frozen claims
about it.  Page texts and chunk texts are modelled as `List Char`; real
vectors are carried opaquely (their contents are never inspected by the
operations under study) as `List Int`; wall-clock time is an abstract
parameter.
-/

/-! ## Chunker (src/apps/doc-indexer/indexer.py) -/

/-- Whitespace characters recognised by the ASCII fragment of Python's
`str.strip()` and the regex class backslash-s. -/
def isPySpace (c : Char) : Bool :=
  c = ' ' || c = '\t' || c = '\n' || c = '\r' || c = '\x0b' || c = '\x0c'

/-- Python `text.strip()`: remove leading and trailing whitespace. -/
def pyStrip (t : List Char) : List Char :=
  ((t.dropWhile isPySpace).reverse.dropWhile isPySpace).reverse

/-- Python `text.split("\n")`: split on newline, keeping empty pieces
(`"".split("\n") = [""]`). -/
def splitNl : List Char → List (List Char)
  | [] => [[]]
  | c :: cs =>
    if c = '\n' then [] :: splitNl cs
    else
      match splitNl cs with
      | [] => [[c]]
      | l :: ls => (c :: l) :: ls

/-- Python `"\n".join(text.split("\n")[:3])` from `process_pdf` line 28. -/
def firstLines (t : List Char) : List Char :=
  List.intercalate ['\n'] ((splitNl t).take 3)

/-- The alternative `#+` of HEADING_PATTERN: a maximal nonempty run of
hash marks; returns the remainder after the run. -/
def parseHashes (t : List Char) : Option (List Char) :=
  match t with
  | [] => none
  | c :: _ => if c = '#' then some (t.dropWhile (· = '#')) else none

/-- The alternative `\b(?:Chapter|Section)\b` of HEADING_PATTERN under
re.IGNORECASE.  The trailing word-boundary test is subsumed by the
`\s+` that the pattern requires next (whitespace is a non-word
character), so only the case-folded literal is checked here. -/
def parseChapterWord (t : List Char) : Option (List Char) :=
  if (t.take 7).map Char.toLower = "chapter".data
      || (t.take 7).map Char.toLower = "section".data then
    some (t.drop 7)
  else none

/-- The alternative `\d+\.\d+` of HEADING_PATTERN: maximal digit run,
a dot, maximal digit run. -/
def parseNumbered (t : List Char) : Option (List Char) :=
  let d1 := t.takeWhile Char.isDigit
  if d1 = [] then none
  else
    match t.drop d1.length with
    | [] => none
    | c :: rest2 =>
      if c = '.' then
        let d2 := rest2.takeWhile Char.isDigit
        if d2 = [] then none else some (rest2.drop d2.length)
      else none

/-- Group 1 of HEADING_PATTERN: the three alternatives are mutually
exclusive on their first character, so match order is immaterial. -/
def parseMarker (t : List Char) : Option (List Char) :=
  match parseHashes t with
  | some r => some r
  | none =>
    match parseChapterWord t with
    | some r => some r
    | none => parseNumbered t

/-- Anchored match of `HEADING_PATTERN = r"^(#+|\b(?:Chapter|Section)\b|\d+\.\d+)\s+(.+)$"`
against an already-stripped string, returning group 2.  Without
re.MULTILINE the `^` pins the match to position 0 and `$` only matches
at the end of the string (the input is stripped, so it has no trailing
newline), while `.` in group 2 cannot cross a newline: the match
succeeds exactly when the whole string is marker ++ whitespace ++
newline-free remainder. -/
def matchHeading (t : List Char) : Option (List Char) :=
  match parseMarker t with
  | none => none
  | some rest =>
    let w := rest.takeWhile isPySpace
    let r := rest.dropWhile isPySpace
    if w = [] || r = [] || r.any (· = '\n') then none else some r

/-- `extract_heading` (indexer.py lines 12-15): strip, then re.search of
the anchored HEADING_PATTERN with re.IGNORECASE. -/
def extract_heading (text : List Char) : Option (List Char) :=
  matchHeading (pyStrip text)

/-- Heading candidate of a page (indexer.py lines 27-29): join the first
three lines and run `extract_heading` on the result. -/
def pageHeading (text : List Char) : Option (List Char) :=
  extract_heading (firstLines text)

/-- Default chunk window, indexer.py line 9. -/
def CHUNK_SIZE : Nat := 1000

/-- Recursion kernel for the chunk loop: the fuel only bounds the number
of windows (each step consumes at least one character when
`size ≠ 0`), so `fuel = t.length` always suffices. -/
def chunksOfAux (size : Nat) : Nat → List Char → List (List Char)
  | 0, _ => []
  | _ + 1, [] => []
  | fuel + 1, c :: cs => (c :: cs).take size :: chunksOfAux size fuel ((c :: cs).drop size)

/-- The loop `for i in range(0, len(text), CHUNK_SIZE): text[i:i+CHUNK_SIZE]`
(indexer.py lines 32-33): successive non-overlapping windows of at most
`size` characters.  `size = 0` (a ValueError in Python) yields `[]`. -/
def chunksOf (size : Nat) (t : List Char) : List (List Char) :=
  if size = 0 then [] else chunksOfAux size t.length t

/-- A chunk record as built in indexer.py lines 34-39. -/
structure Chunk where
  doc_id : String
  chunk_text : List Char
  page_number : Nat
  heading : Option (List Char)

def dummyChunk : Chunk := ⟨"", [], 0, none⟩

/-- The body of the chunk loop: the j-th window gets the page heading
exactly when its character offset `i` is 0, i.e. when j = 0
(`"heading": heading if i == 0 else None`, indexer.py line 38). -/
def chunksWithHeading (doc_id : String) (page_num : Nat)
    (h : Option (List Char)) : Nat → List (List Char) → List Chunk
  | _, [] => []
  | j, c :: cs =>
    ⟨doc_id, c, page_num, if j = 0 then h else none⟩ ::
      chunksWithHeading doc_id page_num h (j + 1) cs

/-- All chunks produced from one page (indexer.py lines 27-39). -/
def pageChunks (doc_id : String) (size : Nat) (page_num : Nat)
    (t : List Char) : List Chunk :=
  chunksWithHeading doc_id page_num (pageHeading t) 0 (chunksOf size t)

/-- Outcome of `page.extract_text()` for one page: a string, `None`
(modelled `ok none`), or a raised exception. -/
inductive PageResult
  | ok (t : Option (List Char))
  | exn
deriving DecidableEq

/-- The page loop of `process_pdf` (indexer.py lines 20-43).  The
try/except wraps the whole loop, so the first page whose extraction
raises jumps to the except handler and the chunks gathered so far are
returned; pages whose extraction merely yields no text
(`if not text: continue`) are skipped and the loop goes on. -/
def processPages (doc_id : String) (size : Nat) :
    Nat → List PageResult → List Chunk
  | _, [] => []
  | _, PageResult.exn :: _ => []
  | n, PageResult.ok t :: rest =>
    (match t with
     | none => []
     | some text => if text = [] then [] else pageChunks doc_id size n text)
      ++ processPages doc_id size (n + 1) rest

/-- `process_pdf` (indexer.py lines 17-43): pages are enumerated from 1;
the document id is the file basename, taken here as a parameter. -/
def process_pdf (doc_id : String) (size : Nat)
    (pages : List PageResult) : List Chunk :=
  processPages doc_id size 1 pages

/-! ## Indexing and storage (src/apps/doc-indexer/embed.py) -/

/-- A Python dict value as it may appear in chunk metadata: a string, an
integer, or `None`. -/
inductive MVal
  | str (s : String)
  | nat (n : Nat)
  | null
deriving DecidableEq

/-- A chunk object as read back from the `_processed.json` files: embed.py
accesses only the keys `chunk_text` (required), `page_number` and
`heading` (fetched with `.get`, so possibly absent or null). -/
structure JChunk where
  chunk_text : String
  page_number : Option Nat
  heading : Option String
deriving DecidableEq

/-- The metadata dict built for one chunk in `store_in_chromadb`
(embed.py lines 55-69): `page if page is not None else 0` and
`heading if heading is not None else ""`. -/
def chunkMetadata (doc_id : String) (i : Nat) (c : JChunk) :
    List (String × MVal) :=
  [("doc_id", MVal.str doc_id),
   ("page", match c.page_number with | some p => MVal.nat p | none => MVal.nat 0),
   ("heading", match c.heading with | some h => MVal.str h | none => MVal.str ""),
   ("chunk_index", MVal.nat i)]

/-- One record of a ChromaDB collection: embedding vector, document text
and metadata, keyed externally by its id.  Vector contents are carried
opaquely. -/
structure Record where
  embedding : List Int
  document : String
  metadata : List (String × MVal)
deriving DecidableEq

/-- A named collection is a sequence of (id, record) pairs. -/
abbrev Collection := List (String × Record)

/-- The ids of a collection, in storage order. -/
def colKeys (col : Collection) : List String := col.map (·.1)

/-- Modelled from the spec: the write operation of the external ChromaDB
collection (`self.collection.add`, embed.py lines 72-77) is not
repository code; spec section 4.3 specifies the VectorStore write as
upsert, which "inserts or overwrites by id".  One record: overwrite in
place when the id is present, append otherwise. -/
def upsertOne (id : String) (r : Record) (col : Collection) : Collection :=
  if col.any (fun p => p.1 == id) then
    col.map (fun p => if p.1 == id then (id, r) else p)
  else col ++ [(id, r)]

/-- Modelled from the spec: batch write of the external ChromaDB
collection; records are applied in order. -/
def upsertAll (batch : List (String × Record)) (col : Collection) : Collection :=
  batch.foldl (fun c p => upsertOne p.1 p.2 c) col

/-- Record ids `f"{doc_id}_chunk_{i}" for i in range(len(chunks))`
(embed.py line 52). -/
def storeIds (doc_id : String) (n : Nat) : List String :=
  (List.range n).map (fun i => doc_id ++ "_chunk_" ++ toString i)

/-- The dict returned by `store_in_chromadb`. -/
inductive StoreResult
  | success (stored_count : Nat) (collection_size : Nat)
  | error (msg : String)
deriving DecidableEq

def StoreResult.status : StoreResult → String
  | .success _ _ => "success"
  | .error _ => "error"

/-- The (id, record) batch handed to the collection write in
`store_in_chromadb` (embed.py lines 52-77): ids, documents and cleaned
metadata, zipped positionally. -/
def storeBatch (doc_id : String) (chunks : List JChunk)
    (embeddings : List (List Int)) : List (String × Record) :=
  (storeIds doc_id chunks.length).zip
    ((embeddings.zip ((chunks.map (·.chunk_text)).zip
        (chunks.enum.map (fun p => chunkMetadata doc_id p.1 p.2)))).map
      (fun p => Record.mk p.1 p.2.1 p.2.2))

/-- The collection state after the batch write. -/
def storeCollection (doc_id : String) (chunks : List JChunk)
    (embeddings : List (List Int)) (col : Collection) : Collection :=
  upsertAll (storeBatch doc_id chunks embeddings) col

/-- `DocIndexer.store_in_chromadb` (embed.py lines 46-89): build ids,
documents and cleaned metadata, write the batch to the collection, and
report the stored count and the collection count; any exception (the
external store rejects a batch whose embedding count disagrees with its
chunk count) is caught and converted into an error dict. -/
def store_in_chromadb (doc_id : String) (chunks : List JChunk)
    (embeddings : List (List Int)) (col : Collection) :
    StoreResult × Collection :=
  if embeddings.length = chunks.length then
    (StoreResult.success chunks.length
      (storeCollection doc_id chunks embeddings col).length,
     storeCollection doc_id chunks embeddings col)
  else (StoreResult.error "number of embeddings must match number of chunks", col)

/-- The dict returned by `process_and_store_chunks` (the backup-file path
written on success is an IO artifact and is elided). -/
inductive PResult
  | success (doc_id : String) (chroma_result : StoreResult)
      (chunk_count : Nat) (sample_embedding : List Int)
  | error (doc_id : String) (msg : String)
deriving DecidableEq

def PResult.status : PResult → String
  | .success _ _ _ _ => "success"
  | .error _ _ => "error"

/-- `DocIndexer.process_and_store_chunks` (embed.py lines 111-152): embed
every chunk text, store the batch, and build the success summary; the
summary reads `embeddings[0][:3]`, which raises IndexError ("list index
out of range") when there is no first embedding, and the surrounding
try/except converts any raise into an error dict.  The embedding model
is abstracted as a per-text function, so the batch result keeps one
vector per text in order (spec section 4.2). -/
def process_and_store_chunks (embed : String → List Int) (doc_id : String)
    (chunks : List JChunk) (col : Collection) : PResult × Collection :=
  let texts := chunks.map (·.chunk_text)
  let embeddings := texts.map embed
  let stored := store_in_chromadb doc_id chunks embeddings col
  match stored.1 with
  | StoreResult.error e =>
    (PResult.error doc_id ("ChromaDB storage failed: " ++ e), stored.2)
  | StoreResult.success n m =>
    match embeddings.head? with
    | none => (PResult.error doc_id "list index out of range", stored.2)
    | some e0 =>
      (PResult.success doc_id (StoreResult.success n m) chunks.length
        (e0.take 3), stored.2)

/-- Collection name used by the indexing path (embed.py lines 38-41). -/
def indexer_collection_name : String := "doc_chunks"

/-- Collection name used by the query path (ragEngine.py lines 39-43). -/
def qa_collection_name : String := "document_chunks"

/-- The persistent ChromaDB instance maps collection names to
collections. -/
abbrev Database := List (String × Collection)

/-- The database after the indexing path stores one document: DocIndexer
creates its collection at init (embed.py lines 38-41) and
`store_in_chromadb` writes the records into it. -/
def demo_indexed_db : Database :=
  [(indexer_collection_name,
    (store_in_chromadb "example.pdf" [⟨"hello world", some 1, none⟩]
      [[1, 2, 3]] []).2)]

/-! ## QA orchestrator (src/apps/qa-engine/ragEngine.py) -/

/-- A retrieved source document as langchain hands it back: metadata dict
plus page content. -/
structure SourceDoc where
  metadata : List (String × MVal)
  page_content : String

/-- The value of a successful `qa_chain({"query": question})` call: the
generated answer and the retrieved source documents. -/
structure ChainOk where
  result : String
  source_documents : List SourceDoc

/-- One entry of the response's `sources` list (ragEngine.py lines
93-100): `doc.metadata.get("doc_id", "unknown")`,
`doc.metadata.get("page", 0)` and the first 100 characters of the
content followed by an ellipsis. -/
structure Cite where
  document : MVal
  page : MVal
  content_preview : String

def mkCite (d : SourceDoc) : Cite :=
  ⟨(List.lookup "doc_id" d.metadata).getD (MVal.str "unknown"),
   (List.lookup "page" d.metadata).getD (MVal.nat 0),
   d.page_content.take 100 ++ "..."⟩

/-- A value of the Python dict returned by `ask_question`. -/
inductive PyVal
  | str (s : String)
  | num (n : Nat)
  | cites (l : List Cite)

/-- `SimpleRAGQA.ask_question` (ragEngine.py lines 81-107).  The QA chain
built per request (embedding the query, retrieving k nearest chunks and
prompting the model) is an external collaborator, abstracted as a
function from the question to either a raised exception's message or a
chain result; wall-clock duration is abstracted as `elapsed`.  The body
is a single try/except: on success a question/answer/sources/
processing_time dict is returned, on any exception a dict with the one
key "error" is returned. -/
def ask_question (chain : String → Except String ChainOk) (elapsed : Nat)
    (question : String) : List (String × PyVal) :=
  match chain question with
  | Except.ok res =>
    [("question", PyVal.str question),
     ("answer", PyVal.str res.result),
     ("sources", PyVal.cites (res.source_documents.map mkCite)),
     ("processing_time", PyVal.num elapsed)]
  | Except.error e =>
    [("error", PyVal.str ("Processing failed: " ++ e))]

/-- A chain that answers every question, used to exercise `ask_question`
on concrete input. -/
def demoChain : String → Except String ChainOk :=
  fun _ => Except.ok ⟨"the answer", []⟩

/-- A chain that raises on every question, used to exercise the except
branch of `ask_question` on concrete input. -/
def failChain : String → Except String ChainOk :=
  fun _ => Except.error "boom"

/-! ## Lemmas about the chunk windows -/

theorem chunksOfAux_nil (size fuel : Nat) : chunksOfAux size fuel [] = [] := by
  cases fuel <;> rfl

theorem chunksOfAux_fuel (size : Nat) (hs : size ≠ 0) :
    ∀ fuel t, t.length ≤ fuel →
      chunksOfAux size fuel t = chunksOfAux size t.length t := by
  intro fuel
  induction fuel using Nat.strong_induction_on with
  | _ fuel ih =>
    intro t ht
    match fuel, t with
    | 0, t =>
      have : t = [] := List.length_eq_zero.mp (Nat.le_zero.mp ht)
      subst this
      rw [chunksOfAux_nil, chunksOfAux_nil]
    | fuel + 1, [] =>
      rw [chunksOfAux_nil, chunksOfAux_nil]
    | fuel + 1, c :: cs =>
      show (c :: cs).take size :: chunksOfAux size fuel ((c :: cs).drop size)
        = (c :: cs).take size :: chunksOfAux size cs.length ((c :: cs).drop size)
      congr 1
      have hdf : ((c :: cs).drop size).length ≤ fuel := by
        rw [List.length_drop]
        simp only [List.length_cons] at ht ⊢
        omega
      have hdc : ((c :: cs).drop size).length ≤ cs.length := by
        rw [List.length_drop]
        simp only [List.length_cons]
        omega
      rw [ih fuel (Nat.lt_succ_self fuel) _ hdf,
        ih cs.length (by simp only [List.length_cons] at ht; omega) _ hdc]

theorem chunksOf_nil (size : Nat) : chunksOf size [] = [] := by
  rw [chunksOf]
  split
  · rfl
  · exact chunksOfAux_nil _ _

theorem chunksOf_cons (size : Nat) (hs : size ≠ 0) (t : List Char)
    (ht : t ≠ []) :
    chunksOf size t = t.take size :: chunksOf size (t.drop size) := by
  match t, ht with
  | c :: cs, _ =>
    rw [chunksOf, if_neg hs, chunksOf, if_neg hs]
    show (c :: cs).take size :: chunksOfAux size cs.length ((c :: cs).drop size)
      = (c :: cs).take size :: chunksOfAux size ((c :: cs).drop size).length ((c :: cs).drop size)
    congr 1
    apply chunksOfAux_fuel size hs
    rw [List.length_drop]
    simp only [List.length_cons]
    omega

theorem chunksOf_drop_length_lt (size : Nat) (hs : size ≠ 0) (t : List Char)
    (ht : t ≠ []) : (t.drop size).length < t.length := by
  rw [List.length_drop]
  have : t.length ≠ 0 := fun hh => ht (List.length_eq_zero.mp hh)
  omega

theorem chunksOf_join (size : Nat) (hs : size ≠ 0) (t : List Char) :
    (chunksOf size t).flatten = t := by
  generalize hn : t.length = n
  induction n using Nat.strong_induction_on generalizing t with
  | _ n ih =>
    by_cases ht : t = []
    · subst ht
      rw [chunksOf_nil]
      rfl
    · subst hn
      rw [chunksOf_cons size hs t ht, List.flatten_cons,
        ih _ (chunksOf_drop_length_lt size hs t ht) _ rfl]
      exact List.take_append_drop size t

theorem chunksOf_length_le (size : Nat) (t : List Char) :
    ∀ c ∈ chunksOf size t, c.length ≤ size := by
  generalize hn : t.length = n
  induction n using Nat.strong_induction_on generalizing t with
  | _ n ih =>
    by_cases ht : t = []
    · subst ht
      rw [chunksOf_nil]
      intro c hc
      simp at hc
    · by_cases hs : size = 0
      · intro c hc
        rw [chunksOf, if_pos hs] at hc
        simp at hc
      · subst hn
        rw [chunksOf_cons size hs t ht]
        intro c hc
        rcases List.mem_cons.mp hc with rfl | hc
        · simp [List.length_take]
        · exact ih _ (chunksOf_drop_length_lt size hs t ht) _ rfl c hc

theorem chunksOf_eq_nil_iff (size : Nat) (t : List Char) :
    chunksOf size t = [] ↔ size = 0 ∨ t = [] := by
  constructor
  · intro he
    by_cases hs : size = 0
    · exact Or.inl hs
    · by_cases ht : t = []
      · exact Or.inr ht
      · rw [chunksOf_cons size hs t ht] at he
        exact absurd he (List.cons_ne_nil _ _)
  · intro h
    rcases h with h | h
    · rw [chunksOf, if_pos h]
    · subst h
      exact chunksOf_nil size

theorem chunksOf_getD_length (size : Nat) (t : List Char) :
    ∀ i, i + 1 < (chunksOf size t).length →
      ((chunksOf size t).getD i []).length = size := by
  generalize hn : t.length = n
  induction n using Nat.strong_induction_on generalizing t with
  | _ n ih =>
    intro i hi
    by_cases ht : t = []
    · subst ht
      rw [chunksOf_nil] at hi
      simp at hi
    · by_cases hs : size = 0
      · rw [chunksOf, if_pos hs] at hi
        simp at hi
      · subst hn
        rw [chunksOf_cons size hs t ht] at hi ⊢
        match i with
        | 0 =>
          have hne : chunksOf size (t.drop size) ≠ [] := by
            intro hh
            rw [List.length_cons, hh] at hi
            simp at hi
          have hdrop : t.drop size ≠ [] := by
            intro hh
            exact hne ((chunksOf_eq_nil_iff size (t.drop size)).mpr (Or.inr hh))
          have hlt : size < t.length := by
            by_contra hle
            push_neg at hle
            exact hdrop (List.drop_eq_nil_of_le hle)
          simp [List.length_take]
          omega
        | i + 1 =>
          simp only [List.getD_cons_succ]
          exact ih _ (chunksOf_drop_length_lt size hs t ht) _ rfl i (by simpa using hi)

theorem chunksWithHeading_map_text (d : String) (n : Nat)
    (h : Option (List Char)) :
    ∀ j cs, (chunksWithHeading d n h j cs).map Chunk.chunk_text = cs := by
  intro j cs
  induction cs generalizing j with
  | nil => rfl
  | cons c cs ih => simp [chunksWithHeading, ih]

theorem chunksWithHeading_length (d : String) (n : Nat)
    (h : Option (List Char)) :
    ∀ j cs, (chunksWithHeading d n h j cs).length = cs.length := by
  intro j cs
  induction cs generalizing j with
  | nil => rfl
  | cons c cs ih => simp [chunksWithHeading, ih]

theorem chunksWithHeading_getD_text (d : String) (n : Nat)
    (h : Option (List Char)) :
    ∀ j i cs, ((chunksWithHeading d n h j cs).getD i dummyChunk).chunk_text =
      cs.getD i [] := by
  intro j i cs
  induction cs generalizing j i with
  | nil => cases i <;> rfl
  | cons c cs ih =>
    cases i with
    | zero => rfl
    | succ i => simpa [chunksWithHeading] using ih (j + 1) i

theorem chunksWithHeading_getD_heading (d : String) (n : Nat)
    (h : Option (List Char)) :
    ∀ j i cs, i < cs.length →
      ((chunksWithHeading d n h j cs).getD i dummyChunk).heading =
        if j + i = 0 then h else none := by
  intro j i cs hlt
  induction cs generalizing j i with
  | nil => simp at hlt
  | cons c cs ih =>
    cases i with
    | zero => simp [chunksWithHeading]
    | succ i =>
      have hrec := ih (j + 1) i (by simpa using hlt)
      simp only [chunksWithHeading, List.getD_cons_succ, hrec]
      have h1 : j + 1 + i ≠ 0 := by omega
      have h2 : j + (i + 1) ≠ 0 := by omega
      rw [if_neg h1, if_neg h2]

theorem chunksWithHeading_mem (d : String) (n : Nat) (h : Option (List Char)) :
    ∀ j cs c, c ∈ chunksWithHeading d n h j cs →
      c.page_number = n ∧ c.chunk_text ∈ cs := by
  intro j cs
  induction cs generalizing j with
  | nil =>
    intro c hc
    simp [chunksWithHeading] at hc
  | cons x cs ih =>
    intro c hc
    simp only [chunksWithHeading] at hc
    rcases List.mem_cons.mp hc with rfl | hc
    · exact ⟨rfl, List.mem_cons_self _ _⟩
    · obtain ⟨h1, h2⟩ := ih (j + 1) c hc
      exact ⟨h1, List.mem_cons_of_mem _ h2⟩

/-! ## Claims about the chunker -/

/-- C3: for every page with non-empty extracted text and every positive
chunk size, concatenating the chunk texts produced for that page, in
order, yields exactly the page text (no characters dropped or
duplicated); every chunk text has length at most the chunk size, only
the last chunk of the page possibly shorter; each chunk carries that
page's number (no chunk spans two pages, the document chunk list being
the per-page lists in sequence); and a non-empty page contributes at
least one chunk. -/
theorem page_chunking_reconstructs (doc_id : String) (size n : Nat)
    (t : List Char) (hsize : 0 < size) (ht : t ≠ []) :
    ((pageChunks doc_id size n t).map Chunk.chunk_text).flatten = t
    ∧ (∀ c ∈ pageChunks doc_id size n t,
        c.chunk_text.length ≤ size ∧ c.page_number = n)
    ∧ (∀ i, i + 1 < (pageChunks doc_id size n t).length →
        ((pageChunks doc_id size n t).getD i dummyChunk).chunk_text.length = size)
    ∧ pageChunks doc_id size n t ≠ [] := by
  refine ⟨?_, ?_, ?_, ?_⟩
  · rw [pageChunks, chunksWithHeading_map_text]
    exact chunksOf_join size (Nat.pos_iff_ne_zero.mp hsize) t
  · intro c hc
    obtain ⟨hpage, htext⟩ := chunksWithHeading_mem _ _ _ _ _ _ hc
    exact ⟨chunksOf_length_le size t _ htext, hpage⟩
  · intro i hi
    rw [pageChunks, chunksWithHeading_length] at hi
    rw [pageChunks, chunksWithHeading_getD_text]
    exact chunksOf_getD_length size t i hi
  · rw [pageChunks]
    intro hh
    have : chunksOf size t = [] := by
      have := congrArg List.length hh
      rw [chunksWithHeading_length] at this
      exact List.length_eq_zero.mp this
    rcases (chunksOf_eq_nil_iff size t).mp this with h0 | h0
    · omega
    · exact ht h0

theorem page_chunking_reconstructs_witness :
    ((pageChunks "d" 2 1 ("abc".data)).map Chunk.chunk_text).flatten = "abc".data
    ∧ (∀ c ∈ pageChunks "d" 2 1 ("abc".data),
        c.chunk_text.length ≤ 2 ∧ c.page_number = 1)
    ∧ (∀ i, i + 1 < (pageChunks "d" 2 1 ("abc".data)).length →
        ((pageChunks "d" 2 1 ("abc".data)).getD i dummyChunk).chunk_text.length = 2)
    ∧ pageChunks "d" 2 1 ("abc".data) ≠ [] :=
  page_chunking_reconstructs "d" 2 1 ("abc".data) (by decide) (by decide)

/-- C4: every chunk after the first one derived from a page has a null
heading, whatever the page text is: in the loop of indexer.py line 38
the heading is attached only when the character offset is 0. -/
theorem later_chunks_have_no_heading (doc_id : String) (size n : Nat)
    (t : List Char) (j : Nat) (h1 : 1 ≤ j)
    (h2 : j < (pageChunks doc_id size n t).length) :
    ((pageChunks doc_id size n t).getD j dummyChunk).heading = none := by
  rw [pageChunks] at h2 ⊢
  rw [chunksWithHeading_length] at h2
  rw [chunksWithHeading_getD_heading _ _ _ 0 j _ h2]
  have : 0 + j ≠ 0 := by omega
  rw [if_neg this]

theorem later_chunks_have_no_heading_witness :
    ((pageChunks "d" 2 1 ("abcd".data)).getD 1 dummyChunk).heading = none :=
  later_chunks_have_no_heading "d" 2 1 ("abcd".data) 1 (by decide) (by decide)

/-! ## The heading claim (C5) -/

/-- First hit of a list of optional values. -/
def firstSome : List (Option (List Char)) → Option (List Char)
  | [] => none
  | some r :: _ => some r
  | none :: rest => firstSome rest

/-- Modelled from the spec: the heading rule as the spec states it —
"inspect at most the first three lines for a heading: a line matching
one of {...}; the captured remainder of that line becomes the page's
heading candidate (null if no match)" — i.e. each of the first three
lines is matched against HEADING_PATTERN on its own.  Kept for
comparison with the behaviour of `extract_heading` in the source. -/
def specHeadingCandidate (t : List Char) : Option (List Char) :=
  firstSome (((splitNl t).take 3).map (fun line => matchHeading (pyStrip line)))

/-- Group 1 of HEADING_PATTERN, as a predicate: a nonempty run of hash
marks, the case-folded word chapter or section, or digits-dot-digits. -/
def IsHeadMarker (p : List Char) : Prop :=
  (p ≠ [] ∧ ∀ c ∈ p, c = '#')
  ∨ p.map Char.toLower = "chapter".data
  ∨ p.map Char.toLower = "section".data
  ∨ (∃ d1 d2, p = d1 ++ '.' :: d2 ∧ d1 ≠ [] ∧ d2 ≠ []
      ∧ (∀ c ∈ d1, c.isDigit) ∧ (∀ c ∈ d2, c.isDigit))

theorem parseHashes_split (t rest : List Char)
    (h : parseHashes t = some rest) :
    t = t.takeWhile (· = '#') ++ rest
    ∧ t.takeWhile (· = '#') ≠ []
    ∧ ∀ c ∈ t.takeWhile (· = '#'), c = '#' := by
  cases t with
  | nil => simp [parseHashes] at h
  | cons c t0 =>
    simp only [parseHashes] at h
    by_cases hc : c = '#'
    · rw [if_pos hc] at h
      subst hc
      have hrest : rest = ('#' :: t0).dropWhile (· = '#') :=
        (Option.some.inj h).symm
      refine ⟨?_, ?_, ?_⟩
      · rw [hrest]
        exact (List.takeWhile_append_dropWhile _ _).symm
      · simp [List.takeWhile_cons]
      · intro x hx
        have := List.mem_takeWhile_imp hx
        simpa using this
    · rw [if_neg hc] at h
      exact absurd h (by simp)

theorem parseChapterWord_split (t rest : List Char)
    (h : parseChapterWord t = some rest) :
    t = t.take 7 ++ rest
    ∧ ((t.take 7).map Char.toLower = "chapter".data
       ∨ (t.take 7).map Char.toLower = "section".data) := by
  rw [parseChapterWord] at h
  split at h
  · rename_i hcond
    have hrest : rest = t.drop 7 := (Option.some.inj h).symm
    subst hrest
    refine ⟨(List.take_append_drop 7 t).symm, ?_⟩
    simpa using hcond
  · exact absurd h (by simp)

theorem parseNumbered_split (t rest : List Char)
    (h : parseNumbered t = some rest) :
    ∃ d1 d2, t = (d1 ++ '.' :: d2) ++ rest ∧ d1 ≠ [] ∧ d2 ≠ []
      ∧ (∀ c ∈ d1, c.isDigit) ∧ (∀ c ∈ d2, c.isDigit) := by
  rw [parseNumbered] at h
  simp only at h
  split at h
  · exact absurd h (by simp)
  · rename_i h1
    split at h
    · exact absurd h (by simp)
    · rename_i c rest2 heq
      split at h
      · rename_i hdot
        split at h
        · exact absurd h (by simp)
        · rename_i h2
          obtain ⟨s1, hs1⟩ := List.takeWhile_prefix (l := t) (p := Char.isDigit)
          have hdrop1 : t.drop (t.takeWhile Char.isDigit).length = s1 := by
            nth_rewrite 2 [← hs1]
            exact List.drop_left _ _
          obtain ⟨s2, hs2⟩ := List.takeWhile_prefix (l := rest2) (p := Char.isDigit)
          have hdrop2 : rest2.drop (rest2.takeWhile Char.isDigit).length = s2 := by
            nth_rewrite 2 [← hs2]
            exact List.drop_left _ _
          rw [hdrop2] at h
          have hrest : rest = s2 := (Option.some.inj h).symm
          have hs1eq : s1 = c :: rest2 := by
            rw [← hdrop1]
            exact heq
          subst hdot
          subst hrest
          refine ⟨t.takeWhile Char.isDigit, rest2.takeWhile Char.isDigit,
            ?_, h1, h2, ?_, ?_⟩
          · rw [List.append_assoc, List.cons_append, hs2, ← hs1eq]
            exact hs1.symm
          · intro x hx
            exact List.mem_takeWhile_imp hx
          · intro x hx
            exact List.mem_takeWhile_imp hx
      · exact absurd h (by simp)

theorem parseMarker_split (t rest : List Char)
    (h : parseMarker t = some rest) :
    ∃ p, t = p ++ rest ∧ IsHeadMarker p := by
  rw [parseMarker] at h
  match hh : parseHashes t with
  | some r =>
    rw [hh] at h
    obtain ⟨ha, hb, hc⟩ := parseHashes_split t r hh
    exact ⟨t.takeWhile (· = '#'), by rw [← Option.some.inj h]; exact ha,
      Or.inl ⟨hb, hc⟩⟩
  | none =>
    rw [hh] at h
    match hw : parseChapterWord t with
    | some r =>
      rw [hw] at h
      obtain ⟨ha, hb⟩ := parseChapterWord_split t r hw
      exact ⟨t.take 7, by rw [← Option.some.inj h]; exact ha,
        Or.inr (hb.elim (fun x => Or.inl x) (fun x => Or.inr (Or.inl x)))⟩
    | none =>
      rw [hw] at h
      obtain ⟨d1, d2, ha, hb, hc, hd, he⟩ := parseNumbered_split t rest h
      exact ⟨d1 ++ '.' :: d2, ha, Or.inr (Or.inr (Or.inr ⟨d1, d2, rfl, hb, hc, hd, he⟩))⟩

theorem matchHeading_split (t r : List Char) (h : matchHeading t = some r) :
    ∃ p w, t = p ++ w ++ r ∧ IsHeadMarker p ∧ w ≠ []
      ∧ (∀ c ∈ w, isPySpace c) ∧ r ≠ [] ∧ ∀ c ∈ r, c ≠ '\n' := by
  rw [matchHeading] at h
  match hm : parseMarker t with
  | none => rw [hm] at h; exact absurd h (by simp)
  | some rest =>
    rw [hm] at h
    simp only at h
    split at h
    · exact absurd h (by simp)
    · rename_i hguard
      have hr : r = rest.dropWhile isPySpace := by
        simpa using h.symm
      obtain ⟨p, hp, hmark⟩ := parseMarker_split t rest hm
      simp only [Bool.or_eq_true, not_or, decide_eq_true_eq] at hguard
      refine ⟨p, rest.takeWhile isPySpace, ?_, hmark, ?_, ?_, ?_, ?_⟩
      · rw [hp, hr, List.append_assoc, List.takeWhile_append_dropWhile]
      · intro hw
        exact hguard.1.1 hw
      · intro c hc
        exact List.mem_takeWhile_imp hc
      · intro hre
        exact hguard.1.2 (by rw [← hr]; exact hre)
      · intro c hc hcn
        apply hguard.2
        rw [List.any_eq_true]
        exact ⟨c, hr ▸ hc, by simp [hcn]⟩

/-- C5 counterexample: the page text begins with the line `# Title`,
which matches the heading pattern on its own, so the claim requires
heading candidate `Title`; but HEADING_PATTERN is anchored (`^ ... $`
without re.MULTILINE) and is matched against the joined first three
lines as one string, so the source produces no heading at all. -/
theorem heading_first_line_not_extracted :
    pageHeading ("# Title\nbody".data) = none
    ∧ specHeadingCandidate ("# Title\nbody".data) = some ("Title".data) := by
  constructor <;> rfl

/-- C5 as amended: a heading candidate is produced only when the match
spans the entire stripped text of the first three lines: that stripped
text must decompose as marker ++ whitespace ++ remainder with the
remainder nonempty and newline-free, and the remainder is the
candidate.  In particular a matching first line followed by further
content lines yields a null heading, as the counterexample shows. -/
theorem heading_requires_whole_match (t r : List Char)
    (h : pageHeading t = some r) :
    ∃ p w, pyStrip (firstLines t) = p ++ w ++ r ∧ IsHeadMarker p ∧ w ≠ []
      ∧ (∀ c ∈ w, isPySpace c) ∧ r ≠ [] ∧ ∀ c ∈ r, c ≠ '\n' :=
  matchHeading_split _ r h

theorem heading_requires_whole_match_witness :
    ∃ p w, pyStrip (firstLines ("1.2 Shipping".data)) = p ++ w ++ "Shipping".data
      ∧ IsHeadMarker p ∧ w ≠ []
      ∧ (∀ c ∈ w, isPySpace c) ∧ "Shipping".data ≠ []
      ∧ ∀ c ∈ "Shipping".data, c ≠ '\n' :=
  heading_requires_whole_match ("1.2 Shipping".data) ("Shipping".data) (by rfl)

/-! ## The page-failure claim (C6) -/

/-- C6 counterexample: in a three-page document whose middle page raises
during text extraction, the claim requires the chunks of page 3 still
to be produced; but the try/except of `process_pdf` wraps the whole
page loop, so the run stops at page 2 and only page 1's chunks are
returned, although page 3 alone would have produced two chunks. -/
theorem page_exception_drops_later_pages :
    (process_pdf "d" 2
        [PageResult.ok (some ("aaaa".data)), PageResult.exn,
         PageResult.ok (some ("bbbb".data))]).map Chunk.page_number = [1, 1]
    ∧ (pageChunks "d" 2 3 ("bbbb".data)).length = 2 := by
  constructor <;> rfl

/-- C6 as amended: a page whose extraction yields no text is skipped and
processing continues with the following pages, but a page whose
extraction raises stops the document there: the chunks of the pages
before it are returned (no exception escapes), and the pages after it
are not processed at all. -/
theorem extraction_exception_stops_remaining (d : String) (size n : Nat)
    (pre post : List PageResult) (h : PageResult.exn ∉ pre) :
    processPages d size n (pre ++ PageResult.exn :: post) = processPages d size n pre
    ∧ ∀ rest, processPages d size n (PageResult.ok none :: rest) =
        processPages d size (n + 1) rest := by
  constructor
  · induction pre generalizing n with
    | nil => rfl
    | cons p pre ih =>
      match p with
      | PageResult.exn => exact absurd (List.mem_cons_self _ _) h
      | PageResult.ok t =>
        have hnot : PageResult.exn ∉ pre := fun hm => h (List.mem_cons_of_mem _ hm)
        simp only [List.cons_append, processPages, List.append_eq]
        rw [ih (n + 1) hnot]
  · intro rest
    rfl

theorem extraction_exception_stops_remaining_witness :
    processPages "d" 2 1
        ([PageResult.ok (some ("aa".data))] ++ PageResult.exn ::
          [PageResult.ok (some ("b".data))])
      = processPages "d" 2 1 [PageResult.ok (some ("aa".data))]
    ∧ ∀ rest, processPages "d" 2 1 (PageResult.ok none :: rest) =
        processPages "d" 2 2 rest :=
  extraction_exception_stops_remaining "d" 2 1
    [PageResult.ok (some ("aa".data))] [PageResult.ok (some ("b".data))]
    (by decide)

/-! ## Lemmas about the modelled collection writes -/

theorem any_beq_iff_mem (id : String) (col : Collection) :
    col.any (fun p => p.1 == id) = true ↔ id ∈ colKeys col := by
  rw [List.any_eq_true]
  constructor
  · rintro ⟨p, hp, he⟩
    exact List.mem_map.mpr ⟨p, hp, by simpa using he⟩
  · intro hm
    obtain ⟨p, hp, he⟩ := List.mem_map.mp hm
    exact ⟨p, hp, by simp [he]⟩

theorem colKeys_upsertOne (id : String) (r : Record) (col : Collection) :
    colKeys (upsertOne id r col) =
      if col.any (fun p => p.1 == id) = true then colKeys col
      else colKeys col ++ [id] := by
  by_cases hg : col.any (fun p => p.1 == id) = true
  · rw [upsertOne, if_pos hg, if_pos hg, colKeys, colKeys, List.map_map]
    apply List.map_congr_left
    intro p _
    by_cases hp : p.1 == id
    · simp only [Function.comp_apply, if_pos hp]
      exact (eq_of_beq hp).symm
    · simp only [Function.comp_apply, if_neg hp]
  · rw [upsertOne, if_neg hg, if_neg hg, colKeys, colKeys, List.map_append]
    rfl

theorem colKeys_upsertOne_of_mem (id : String) (r : Record) (col : Collection)
    (h : id ∈ colKeys col) : colKeys (upsertOne id r col) = colKeys col := by
  rw [colKeys_upsertOne, if_pos ((any_beq_iff_mem id col).mpr h)]

theorem length_upsertOne_of_mem (id : String) (r : Record) (col : Collection)
    (h : id ∈ colKeys col) : (upsertOne id r col).length = col.length := by
  rw [upsertOne, if_pos ((any_beq_iff_mem id col).mpr h), List.length_map]

theorem mem_colKeys_upsertOne_self (id : String) (r : Record)
    (col : Collection) : id ∈ colKeys (upsertOne id r col) := by
  rw [colKeys_upsertOne]
  split
  · rename_i hg
    exact (any_beq_iff_mem id col).mp hg
  · exact List.mem_append_right _ (List.mem_singleton.mpr rfl)

theorem mem_colKeys_upsertOne_of_mem (a id : String) (r : Record)
    (col : Collection) (h : a ∈ colKeys col) :
    a ∈ colKeys (upsertOne id r col) := by
  rw [colKeys_upsertOne]
  split
  · exact h
  · exact List.mem_append_left _ h

theorem upsertAll_cons (p : String × Record) (b : List (String × Record))
    (col : Collection) :
    upsertAll (p :: b) col = upsertAll b (upsertOne p.1 p.2 col) := by
  rw [upsertAll, upsertAll, List.foldl_cons]

theorem mem_colKeys_upsertAll (b : List (String × Record)) (col : Collection)
    (a : String) (h : a ∈ colKeys col) : a ∈ colKeys (upsertAll b col) := by
  induction b generalizing col with
  | nil => exact h
  | cons p b ih =>
    rw [upsertAll_cons]
    exact ih _ (mem_colKeys_upsertOne_of_mem a p.1 p.2 col h)

theorem batch_mem_colKeys_upsertAll (b : List (String × Record))
    (col : Collection) : ∀ p ∈ b, p.1 ∈ colKeys (upsertAll b col) := by
  induction b generalizing col with
  | nil =>
    intro p hp
    simp at hp
  | cons q b ih =>
    intro p hp
    rw [upsertAll_cons]
    rcases List.mem_cons.mp hp with rfl | hp
    · exact mem_colKeys_upsertAll b _ p.1 (mem_colKeys_upsertOne_self p.1 p.2 col)
    · exact ih _ p hp

theorem upsertAll_of_keys_subset (b : List (String × Record))
    (col : Collection) (h : ∀ p ∈ b, p.1 ∈ colKeys col) :
    (upsertAll b col).length = col.length
    ∧ colKeys (upsertAll b col) = colKeys col := by
  induction b generalizing col with
  | nil => exact ⟨rfl, rfl⟩
  | cons p b ih =>
    have hp : p.1 ∈ colKeys col := h p (List.mem_cons_self _ _)
    have hkeys := colKeys_upsertOne_of_mem p.1 p.2 col hp
    have hrest : ∀ q ∈ b, q.1 ∈ colKeys (upsertOne p.1 p.2 col) := by
      intro q hq
      rw [hkeys]
      exact h q (List.mem_cons_of_mem _ hq)
    obtain ⟨hl, hk⟩ := ih _ hrest
    rw [upsertAll_cons]
    exact ⟨hl.trans (length_upsertOne_of_mem p.1 p.2 col hp),
      hk.trans hkeys⟩

theorem nodup_colKeys_upsertOne (id : String) (r : Record) (col : Collection)
    (h : (colKeys col).Nodup) : (colKeys (upsertOne id r col)).Nodup := by
  rw [colKeys_upsertOne]
  split
  · exact h
  · rename_i hg
    have hnm : id ∉ colKeys col := fun hm => hg ((any_beq_iff_mem id col).mpr hm)
    rw [List.nodup_append]
    exact ⟨h, List.nodup_singleton id,
      fun a ha hae => hnm (List.mem_singleton.mp hae ▸ ha)⟩

theorem nodup_colKeys_upsertAll (b : List (String × Record)) (col : Collection)
    (h : (colKeys col).Nodup) : (colKeys (upsertAll b col)).Nodup := by
  induction b generalizing col with
  | nil => exact h
  | cons p b ih =>
    rw [upsertAll_cons]
    exact ih _ (nodup_colKeys_upsertOne p.1 p.2 col h)

/-! ## The idempotent-store claim (C7) -/

/-- C7: storing the same (doc_id, chunks, embeddings) twice is
idempotent under the spec's upsert semantics for the external
collection write: the ids of the second batch collide with the first,
so the second call succeeds, reports the same collection size, leaves
the collection count unchanged, and creates no duplicate records (the
set of ids stays duplicate-free whenever it started so). -/
theorem store_in_chromadb_idempotent (doc_id : String) (chunks : List JChunk)
    (embeddings : List (List Int)) (col : Collection)
    (h : embeddings.length = chunks.length) :
    (store_in_chromadb doc_id chunks embeddings
        (store_in_chromadb doc_id chunks embeddings col).2).1
      = StoreResult.success chunks.length
          ((store_in_chromadb doc_id chunks embeddings col).2).length
    ∧ (store_in_chromadb doc_id chunks embeddings
        (store_in_chromadb doc_id chunks embeddings col).2).2.length
      = ((store_in_chromadb doc_id chunks embeddings col).2).length
    ∧ ((colKeys col).Nodup →
        (colKeys (store_in_chromadb doc_id chunks embeddings
          (store_in_chromadb doc_id chunks embeddings col).2).2).Nodup) := by
  have hsub : ∀ p ∈ storeBatch doc_id chunks embeddings,
      p.1 ∈ colKeys (storeCollection doc_id chunks embeddings col) :=
    batch_mem_colKeys_upsertAll _ col
  have hsame := upsertAll_of_keys_subset (storeBatch doc_id chunks embeddings)
    (storeCollection doc_id chunks embeddings col) hsub
  simp only [store_in_chromadb, if_pos h]
  refine ⟨?_, hsame.1, ?_⟩
  · rw [storeCollection, hsame.1]
  · intro hnd
    exact nodup_colKeys_upsertAll _ _ (nodup_colKeys_upsertAll _ _ hnd)

theorem store_in_chromadb_idempotent_witness :
    (store_in_chromadb "d" [⟨"t", some 1, none⟩] [[1, 2]]
        (store_in_chromadb "d" [⟨"t", some 1, none⟩] [[1, 2]] []).2).1
      = StoreResult.success 1
          ((store_in_chromadb "d" [⟨"t", some 1, none⟩] [[1, 2]] []).2).length
    ∧ (store_in_chromadb "d" [⟨"t", some 1, none⟩] [[1, 2]]
        (store_in_chromadb "d" [⟨"t", some 1, none⟩] [[1, 2]] []).2).2.length
      = ((store_in_chromadb "d" [⟨"t", some 1, none⟩] [[1, 2]] []).2).length
    ∧ ((colKeys ([] : Collection)).Nodup →
        (colKeys (store_in_chromadb "d" [⟨"t", some 1, none⟩] [[1, 2]]
          (store_in_chromadb "d" [⟨"t", some 1, none⟩] [[1, 2]] []).2).2).Nodup) :=
  store_in_chromadb_idempotent "d" [⟨"t", some 1, none⟩] [[1, 2]] [] (by decide)


/-! ## The metadata-normalization claim (C8) -/

/-- C8: the metadata stored with every chunk record contains no null
value: a missing or null page_number becomes 0 and a missing or null
heading becomes the empty string, while present values and the always-
present doc_id and chunk_index pass through unchanged.  `chunkMetadata`
is exactly the dict built per chunk inside `store_in_chromadb` and
carried into the stored records by `storeBatch`. -/
theorem metadata_never_null (doc_id : String) (i : Nat) (c : JChunk) :
    (∀ kv ∈ chunkMetadata doc_id i c, kv.2 ≠ MVal.null)
    ∧ List.lookup "doc_id" (chunkMetadata doc_id i c) = some (MVal.str doc_id)
    ∧ List.lookup "page" (chunkMetadata doc_id i c)
        = some (MVal.nat (c.page_number.getD 0))
    ∧ List.lookup "heading" (chunkMetadata doc_id i c)
        = some (MVal.str (c.heading.getD ""))
    ∧ List.lookup "chunk_index" (chunkMetadata doc_id i c)
        = some (MVal.nat i) := by
  obtain ⟨ct, pn, hd⟩ := c
  refine ⟨?_, ?_, ?_, ?_, ?_⟩
  · intro kv hkv
    rcases pn with _ | p <;> rcases hd with _ | s <;>
      simp [chunkMetadata] at hkv <;>
      rcases hkv with hkv | hkv | hkv | hkv <;> simp [hkv]
  · rfl
  · rcases pn with _ | p <;> rfl
  · rcases hd with _ | s <;> rfl
  · rcases pn with _ | p <;> rcases hd with _ | s <;> rfl

theorem metadata_never_null_witness :
    (∀ kv ∈ chunkMetadata "d" 2 ⟨"t", none, some "H"⟩, kv.2 ≠ MVal.null)
    ∧ List.lookup "doc_id" (chunkMetadata "d" 2 ⟨"t", none, some "H"⟩)
        = some (MVal.str "d")
    ∧ List.lookup "page" (chunkMetadata "d" 2 ⟨"t", none, some "H"⟩)
        = some (MVal.nat ((none : Option Nat).getD 0))
    ∧ List.lookup "heading" (chunkMetadata "d" 2 ⟨"t", none, some "H"⟩)
        = some (MVal.str ((some "H").getD ""))
    ∧ List.lookup "chunk_index" (chunkMetadata "d" 2 ⟨"t", none, some "H"⟩)
        = some (MVal.nat 2) :=
  metadata_never_null "d" 2 ⟨"t", none, some "H"⟩

/-! ## The empty-question claim (C2) -/

/-- C2 counterexample: `ask_question` performs no validation at all, so
on the empty question the QA chain is invoked and its answer is
returned as a normal success response — no ValidationError, no error
entry, and the pipeline was reached (the chain's answer appears in the
response). -/
theorem ask_empty_question_reaches_pipeline :
    List.lookup "error" (ask_question demoChain 5 "") = none
    ∧ List.lookup "answer" (ask_question demoChain 5 "")
        = some (PyVal.str "the answer")
    ∧ List.lookup "question" (ask_question demoChain 5 "")
        = some (PyVal.str "") := by
  refine ⟨rfl, rfl, rfl⟩

/-- C2 as amended: the orchestrator validates nothing: every question,
empty or whitespace-only included, is passed to the retrieval-and-
synthesis chain, and the response carries an error entry exactly when
the chain itself failed — emptiness of the question plays no role. -/
theorem lookup_error_in_success_dict (q ans : String) (cs : List Cite)
    (el : Nat) :
    List.lookup "error" [("question", PyVal.str q), ("answer", PyVal.str ans),
      ("sources", PyVal.cites cs), ("processing_time", PyVal.num el)] = none :=
  rfl

theorem lookup_error_in_error_dict (msg : String) :
    List.lookup "error" [("error", PyVal.str msg)] = some (PyVal.str msg) :=
  rfl

theorem ask_error_iff_chain_error (chain : String → Except String ChainOk)
    (elapsed : Nat) (question : String) :
    (List.lookup "error" (ask_question chain elapsed question)).isSome
      ↔ ∃ e, chain question = Except.error e := by
  rw [ask_question]
  cases hc : chain question with
  | ok res =>
    rw [lookup_error_in_success_dict]
    constructor
    · intro hs
      simp at hs
    · rintro ⟨e, he⟩
      exact absurd he (by simp)
  | error e =>
    rw [lookup_error_in_error_dict]
    constructor
    · intro _
      exact ⟨e, rfl⟩
    · intro _
      rfl

/-! ## The error-shape claim (C9) -/

/-- C9 counterexample: on a chain failure `ask_question` returns a dict
with the single key "error"; the claim's required field
status = "error" is absent (that shape exists only in the declared
ErrorResponse model, which the returned dict never instantiates). -/
theorem error_result_has_no_status_field :
    List.lookup "status" (ask_question failChain 0 "what") = none
    ∧ List.lookup "error" (ask_question failChain 0 "what")
        = some (PyVal.str "Processing failed: boom") := by
  refine ⟨rfl, rfl⟩

/-- C9 as amended: on any failure during retrieval or synthesis the
orchestrator returns a structured dict rather than letting the
exception escape; the dict carries the error message under the key
"error" (prefixed "Processing failed: ") but contains no "status"
field. -/
theorem ask_failure_returns_error_dict
    (chain : String → Except String ChainOk) (elapsed : Nat)
    (question e : String) (h : chain question = Except.error e) :
    ask_question chain elapsed question
      = [("error", PyVal.str ("Processing failed: " ++ e))]
    ∧ (List.lookup "error" (ask_question chain elapsed question)).isSome
    ∧ List.lookup "status" (ask_question chain elapsed question) = none := by
  rw [ask_question, h]
  exact ⟨rfl, rfl, rfl⟩

theorem ask_failure_returns_error_dict_witness :
    ask_question failChain 7 "why"
      = [("error", PyVal.str ("Processing failed: " ++ "boom"))]
    ∧ (List.lookup "error" (ask_question failChain 7 "why")).isSome
    ∧ List.lookup "status" (ask_question failChain 7 "why") = none :=
  ask_failure_returns_error_dict failChain 7 "why" "boom" rfl

/-! ## The shared-collection claim (C1) -/

/-- C1: the indexing path and the query path are configured with two
different collection names — "doc_chunks" in embed.py against
"document_chunks" in ragEngine.py — so after the indexer stores a
document the database holds records only under the indexer's name and
a lookup under the QA engine's name finds no collection at all:
indexed records are invisible to the retriever. -/
theorem indexed_records_invisible_to_qa :
    indexer_collection_name ≠ qa_collection_name
    ∧ List.lookup qa_collection_name demo_indexed_db = none
    ∧ ((store_in_chromadb "example.pdf" [⟨"hello world", some 1, none⟩]
        [[1, 2, 3]] []).2).length = 1 := by
  refine ⟨by decide, rfl, rfl⟩

/-! ## The empty-chunk-list claim (C10) -/

/-- C10: processing a document with zero chunks returns an error dict
instead of a zero-count success: the store write succeeds trivially,
but building the success summary accesses the first embedding
(`embeddings[0][:3]`), which does not exist, and the resulting
IndexError is caught and converted into a returned dict with
status "error" — nothing is raised to the caller. -/
theorem empty_chunk_list_yields_error (embed : String → List Int)
    (doc_id : String) (col : Collection) :
    (process_and_store_chunks embed doc_id [] col).1
      = PResult.error doc_id "list index out of range"
    ∧ ((process_and_store_chunks embed doc_id [] col).1).status = "error" := by
  refine ⟨rfl, ?_⟩
  rw [show (process_and_store_chunks embed doc_id [] col).1
    = PResult.error doc_id "list index out of range" from rfl]
  rfl
